import Mathlib

/-
  Verification model of the TelegramForwarder repository
  (TelegramForwarder.py and TelegramForwarder_autorun.py).

  The forwarding core is shallowly embedded: handlers become pure state
  transformers over an explicit state (dedup cache, forward log, history,
  sleeps), the platform's forward call becomes an oracle of attempt
  results, and event delivery becomes an explicit trace of events.
-/

/-! ## Strings: Python's `kw.lower() in text.lower()` -/

/-- Python `str.lower()` modelled as character-wise lowering. -/
def lowerStr (s : String) : String := String.mk (s.data.map Char.toLower)

/-- Does the first list start with the second one? -/
def listStartsWith : List Char → List Char → Bool
  | _, [] => true
  | [], _ :: _ => false
  | h :: t, n :: m => h == n && listStartsWith t m

/-- Substring containment on character lists (Python's `in` on strings). -/
def listHasSub : List Char → List Char → Bool
  | [], needle => needle.isEmpty
  | h :: t, needle => listStartsWith (h :: t) needle || listHasSub t needle

/-- `kw.lower() in text.lower()` from TelegramForwarder.py. -/
def containsKw (text kw : String) : Bool :=
  listHasSub (lowerStr text).data (lowerStr kw).data

/-! ## Data model of the forwarding core (TelegramForwarder.py) -/

/-- An incoming message as seen by the handlers: its id, its text
(`event.text or ""`) and its optional grouped (album) identifier. -/
structure Msg where
  id : Nat
  text : String
  groupedId : Option Nat
deriving DecidableEq, Repr

/-- Result of one call to the platform's forward operation:
it returned a result (`ok nonempty`, where `nonempty` records whether the
returned list was truthy), raised `FloodWaitError` with wait `w`, or raised
some other exception. -/
inductive AttemptRes where
  | ok (nonempty : Bool)
  | flood (w : Nat)
  | exc
deriving DecidableEq, Repr

/-- Outcome of the forward-with-one-retry logic shared by both handlers:
whether the forward counted as successful, the sleeps performed
(`e.seconds + 1` on a FloodWait), and how many attempts were consumed. -/
structure FwdResult where
  success : Bool
  sleeps : List Nat
  attempts : Nat
deriving DecidableEq, Repr

/-- The forward executor translated from the try/except structure in
`_handle_album` (lines 212-252) and `_handle_message` (lines 319-336):
attempt once; on FloodWait sleep `w+1` and retry exactly once; any failure
of the retry (including another FloodWait) is final.  `checkEmpty` is true
on the album path, where a falsy returned list counts as failure; the
single-message path ignores the returned value. -/
def forwardExec (a : Nat → AttemptRes) (checkEmpty : Bool) : FwdResult :=
  match a 0 with
  | .ok ne => { success := !checkEmpty || ne, sleeps := [], attempts := 1 }
  | .exc => { success := false, sleeps := [], attempts := 1 }
  | .flood w =>
    match a 1 with
    | .ok ne => { success := !checkEmpty || ne, sleeps := [w + 1], attempts := 2 }
    | .exc => { success := false, sleeps := [w + 1], attempts := 2 }
    | .flood _ => { success := false, sleeps := [w + 1], attempts := 2 }

/-- One actual platform forward that happened: the original message ids
sent, and whether it was an album batch. -/
structure FwdRec where
  ids : List Nat
  isAlbum : Bool
deriving DecidableEq, Repr

/-- One `_record_forwarding` history entry (abstract fields; the rendered
line is `recordLine` below). -/
structure HistRec where
  src : Int
  dest : Int
  ids : List Nat
  kws : List String
  isAlbum : Bool
deriving DecidableEq, Repr

/-- The shared mutable state of the forwarding core:
`cache` is `recently_processed_message_ids`, `fwdLog` records the actual
platform forwards performed, `history` the `_record_forwarding` entries,
`sleeps` the FloodWait back-off sleeps. -/
structure FwdState where
  cache : Finset Nat
  fwdLog : List FwdRec
  history : List HistRec
  sleeps : List Nat
deriving DecidableEq

def initState : FwdState := ⟨∅, [], [], []⟩

/-- The claim loop of `_handle_album` lines 193-198: for each id not in
the cache, add it and append it to `ids_added_now`; returns the new cache
and `ids_added_now` in order. -/
def claimIds (cache : Finset Nat) : List Nat → Finset Nat × List Nat
  | [] => (cache, [])
  | i :: is =>
    if i ∈ cache then claimIds cache is
    else
      let r := claimIds (insert i cache) is
      (r.1, i :: r.2)

/-- The release loop of `_handle_album` lines 260-261: discard each id. -/
def releaseIds (cache : Finset Nat) (ids : List Nat) : Finset Nat :=
  ids.foldl Finset.erase cache

/-- Album keyword filter (line 179):
`not keywords or any(kw.lower() in effective_caption.lower() for kw in keywords)`. -/
def albumKwMatch (keywords : List String) (caption : String) : Bool :=
  keywords.isEmpty || keywords.any (fun kw => containsKw caption kw)

/-- Single-message keyword filter (lines 304-315): no keywords means
forward everything; otherwise the text must be non-empty and some keyword
must occur in it. -/
def msgKwMatch (keywords : List String) (text : String) : Bool :=
  if keywords.isEmpty then true
  else if (text != "") && keywords.any (fun kw => containsKw text kw) then true
  else false

/-- `TelegramForwarder._handle_album` (lines 149-266) as a state
transformer.  `a` is the oracle of platform forward-attempt results.
Control flow follows the source: return on an empty album; return on a
caption keyword mismatch; claim all member ids in the cache recording
`ids_added_now`; attempt the forward (with the one FloodWait retry);
on success record history; on failure discard exactly `ids_added_now`. -/
def handleAlbum (st : FwdState) (src : Int) (members : List Msg) (caption : String)
    (dest : Int) (keywords : List String) (a : Nat → AttemptRes) : FwdState :=
  if members.isEmpty then st
  else
    let ids := members.map (fun m => m.id)
    if albumKwMatch keywords caption then
      let c := claimIds st.cache ids
      let r := forwardExec a true
      if r.success then
        { cache := c.1,
          fwdLog := st.fwdLog ++ [⟨ids, true⟩],
          history := st.history ++ [⟨src, dest, ids, keywords, true⟩],
          sleeps := st.sleeps ++ r.sleeps }
      else
        { cache := releaseIds c.1 c.2,
          fwdLog := st.fwdLog,
          history := st.history,
          sleeps := st.sleeps ++ r.sleeps }
    else st

/-- `TelegramForwarder._handle_message` (lines 269-339) as a state
transformer: return if the message id is in the cache (sole suppression;
a grouped id alone only logs a warning); otherwise apply the keyword
filter to the message's own text; forward with the one FloodWait retry;
record history only on success.  The cache is never modified. -/
def handleMessage (st : FwdState) (src : Int) (m : Msg)
    (dest : Int) (keywords : List String) (a : Nat → AttemptRes) : FwdState :=
  if m.id ∈ st.cache then st
  else if msgKwMatch keywords m.text then
    let r := forwardExec a false
    if r.success then
      { cache := st.cache,
        fwdLog := st.fwdLog ++ [⟨[m.id], false⟩],
        history := st.history ++ [⟨src, dest, [m.id], keywords, false⟩],
        sleeps := st.sleeps ++ r.sleeps }
    else { st with sleeps := st.sleeps ++ r.sleeps }
  else st

/-! ## Event traces -/

/-- One delivered platform event: an album notification, a single-message
notification, or the firing of a scheduled cache eviction
(`_remove_from_message_cache`). -/
inductive Ev where
  | album (src : Int) (members : List Msg) (caption : String) (dest : Int)
      (keywords : List String) (a : Nat → AttemptRes)
  | msg (src : Int) (m : Msg) (dest : Int) (keywords : List String) (a : Nat → AttemptRes)
  | evict (id : Nat)

def step (st : FwdState) : Ev → FwdState
  | .album src mems cap dest k a => handleAlbum st src mems cap dest k a
  | .msg src m dest k a => handleMessage st src m dest k a
  | .evict i => { st with cache := st.cache.erase i }

def run (st : FwdState) (tr : List Ev) : FwdState := tr.foldl step st

/-- How many platform forwards in the log contain message id `i`. -/
def fwdCount (i : Nat) (st : FwdState) : Nat :=
  st.fwdLog.countP (fun r => r.ids.contains i)

/-- Is this event a single-message notification for message id `i`? -/
def evIsMsgFor (i : Nat) : Ev → Bool
  | .msg _ m _ _ _ => m.id == i
  | _ => false

/-- Is this event an album notification having `i` among its member ids? -/
def evIsAlbumWith (i : Nat) : Ev → Bool
  | .album _ mems _ _ _ _ => (mems.map (fun m => m.id)).contains i
  | _ => false

/-- Is this event the timed eviction of id `i`? -/
def evIsEvict (i : Nat) : Ev → Bool
  | .evict j => j == i
  | _ => false

/-! ## History line rendering (`_record_forwarding`, lines 123-136) -/

/-- The history line written by `_record_forwarding`: timestamp, source,
destination, comma-joined original ids (or `N/A` when the list is empty),
comma-joined keywords (or `ANY` when there are none), and the album/single
tag, tab-separated and newline-terminated. -/
def recordLine (timestamp : String) (src dest : Int) (ids : List Nat)
    (kws : List String) (album : Bool) : String :=
  let idsStr := if ids.isEmpty then "N/A" else String.intercalate "," (ids.map toString)
  let kwsStr := if kws.isEmpty then "ANY" else String.intercalate "," kws
  let albumStr := if album then "[ALBUM]" else "[MESSAGE]"
  timestamp ++ "\t" ++ "SRC:" ++ toString src ++ "\t" ++ "DEST:" ++ toString dest
    ++ "\t" ++ "IDS:" ++ idsStr ++ "\t" ++ "KWS:" ++ kwsStr ++ "\t" ++ albumStr ++ "\n"

/-- The line format as the specification words it, with a `[BATCH]` or
`[SINGLE]` tag.  Modelled from the spec for comparison with `recordLine`. -/
def specHistoryLine (timestamp : String) (src dest : Int) (ids : List Nat)
    (kws : List String) (album : Bool) : String :=
  timestamp ++ "\t" ++ "SRC:" ++ toString src ++ "\t" ++ "DEST:" ++ toString dest
    ++ "\t" ++ "IDS:" ++ String.intercalate "," (ids.map toString)
    ++ "\t" ++ "KWS:" ++ (if kws.isEmpty then "ANY" else String.intercalate "," kws)
    ++ "\t" ++ (if album then "[BATCH]" else "[SINGLE]") ++ "\n"

/-! ## Listener registry (`start_listening` / `stop_listening`)

The Telethon client is modelled by its handler list and connection flag.
A registered callback is either one of the two bound methods
(`self._handle_album`, `self._handle_message`) or a `functools.partial`
wrapper around one of them; distinct `partial` objects are distinct
Python objects and compare by identity, which the model captures by a
fresh numeric tag per created wrapper. -/

inductive HKind where
  | albumH
  | messageH
deriving DecidableEq, Repr

/-- A Python callable registered as an event handler. -/
inductive Callback where
  | method (k : HKind)
  | wrapped (k : HKind) (tag : Nat)
deriving DecidableEq, Repr

/-- Python `==` between registered callbacks: bound methods of the same
instance compare equal by function; `functools.partial` objects define no
equality and compare by object identity (the fresh tag), and never equal
a bound method. -/
def cbEq : Callback → Callback → Bool
  | .method k, .method j => k == j
  | .wrapped _ t, .wrapped _ u => t == u
  | _, _ => false

/-- The event filter a handler was registered with:
`events.Album(chats=src_ids)` or `events.NewMessage(chats=src_ids, incoming=True)`. -/
structure EvtFilter where
  kind : HKind
  srcs : List Int
  incoming : Bool
deriving DecidableEq, Repr

/-- The Telethon client state visible to the registry: the list of
registered `(callback, event-filter)` pairs and the connection flag. -/
structure ClientSt where
  handlers : List (Callback × EvtFilter)
  connected : Bool
deriving DecidableEq, Repr

/-- Telethon's `remove_event_handler(callback)`: drop every registered
pair whose callback compares `==` to the argument. -/
def removeEventHandler (c : ClientSt) (cb : Callback) : ClientSt :=
  { c with handlers := c.handlers.filter (fun h => !cbEq h.1 cb) }

/-- Telethon's `add_event_handler(callback, event)`. -/
def addEventHandler (c : ClientSt) (cb : Callback) (f : EvtFilter) : ClientSt :=
  { c with handlers := c.handlers ++ [(cb, f)] }

/-- One forwarding job `(src_ids, dest_id, keywords)`. -/
structure Job where
  srcs : List Int
  dest : Int
  kws : List String
deriving DecidableEq, Repr

/-- State owned by the `TelegramForwarder` instance for the listener
lifecycle: the client, `self._running`, and the next fresh identity tag
for `partial` objects created during registration. -/
structure RegSt where
  client : ClientSt
  running : Bool
  nextTag : Nat
deriving DecidableEq, Repr

/-- The registration loop of `start_listening` (lines 365-385): for each
job, add a fresh `partial`-wrapped album handler and a fresh
`partial`-wrapped message handler filtered to the job's sources. -/
def registerJobs (c : ClientSt) (tag : Nat) (jobs : List Job) : ClientSt × Nat :=
  jobs.foldl
    (fun acc j =>
      let c1 := addEventHandler acc.1 (.wrapped .albumH acc.2) ⟨.albumH, j.srcs, false⟩
      let c2 := addEventHandler c1 (.wrapped .messageH (acc.2 + 1)) ⟨.messageH, j.srcs, true⟩
      (c2, acc.2 + 2))
    (c, tag)

/-- `start_listening` up to entering `client.run_until_disconnected()`
(lines 342-391): refuse when already running or when the job list is
empty; connect; call `remove_event_handler` on the two bound methods;
register a fresh handler pair per job; set `_running`. -/
def startListening (st : RegSt) (jobs : List Job) : RegSt :=
  if st.running then st
  else if jobs.isEmpty then st
  else
    let c := { st.client with connected := true }
    let c := removeEventHandler c (.method .albumH)
    let c := removeEventHandler c (.method .messageH)
    let r := registerJobs c st.nextTag jobs
    { client := r.1, running := true, nextTag := r.2 }

/-- `stop_listening` (lines 412-437): if the client is already
disconnected, just clear `_running` and return; otherwise disconnect and
clear `_running`.  Registered handlers are never removed here. -/
def stopListening (st : RegSt) : RegSt :=
  if !st.client.connected then { st with running := false }
  else { client := { st.client with connected := false }, running := false,
         nextTag := st.nextTag }

/-! ## Autorun polling loop (TelegramForwarder_autorun.py) -/

/-- A message in a chat's history, for the autorun variant. -/
structure AMsg where
  id : Nat
  text : String
deriving DecidableEq, Repr

/-- The autorun keyword filter (line 37):
`not keywords or any(k.lower() in (m.text or '').lower() for k in keywords)`. -/
def autoKwMatch (keywords : List String) (text : String) : Bool :=
  keywords.isEmpty || keywords.any (fun k => containsKw text k)

/-- `client.get_messages(cid, min_id=last)`: the messages of the chat
with id strictly greater than `minId`, newest first.  `log` is the chat's
history in chronological order (ascending ids). -/
def fetchMessages (log : List AMsg) (minId : Nat) : List AMsg :=
  (log.filter (fun m => minId < m.id)).reverse

/-- One inner iteration of `_forward_loop` for one source chat
(lines 35-39): fetch messages newer than `last`, walk them oldest first
(`reversed(msgs)`), forward each keyword match, and raise `last` to the
maximum id seen.  The state is `(last, forwarded ids so far)`. -/
def forwardLoopBody (keywords : List String) (st : Nat × List Nat)
    (log : List AMsg) : Nat × List Nat :=
  ((fetchMessages log st.1).reverse).foldl
    (fun acc m =>
      (max acc.1 m.id,
       if autoKwMatch keywords m.text then acc.2 ++ [m.id] else acc.2))
    st

/-- `(await client.get_messages(cid, limit=1))[0].id` (line 32): the id of
the newest message of the chat, `none` when the chat is empty (where the
source would raise an IndexError). -/
def initLast (log : List AMsg) : Option Nat :=
  (log.reverse.head?).map (fun m => m.id)

/-- The polling loop for one source chat across successive snapshots of
the chat's history, starting from last-seen id `last0`. -/
def runLoop (keywords : List String) (last0 : Nat)
    (snapshots : List (List AMsg)) : Nat × List Nat :=
  snapshots.foldl (forwardLoopBody keywords) (last0, [])

/-! ## Concrete instances used by witnesses and counterexamples -/

/-- An attempt oracle whose every call returns a non-empty success. -/
def okAttempt : Nat → AttemptRes := fun _ => AttemptRes.ok true

/-- An attempt oracle raising FloodWait(5) first and succeeding on retry. -/
def floodThenOk : Nat → AttemptRes := fun n =>
  if n = 0 then AttemptRes.flood 5 else AttemptRes.ok true

/-- A two-message album where only the second member's own text contains
the keyword, while the album caption (the first member's text) does not. -/
def c2mems : List Msg := [⟨1, "hello", some 7⟩, ⟨2, "urgent", some 7⟩]

theorem listStartsWith_iff (l n : List Char) :
    listStartsWith l n = true ↔ ∃ s, l = n ++ s := by
  induction n generalizing l with
  | nil => simp [listStartsWith]
  | cons x m ih =>
    cases l with
    | nil => simp [listStartsWith]
    | cons h t =>
      simp only [listStartsWith, Bool.and_eq_true, beq_iff_eq, ih, List.cons_append,
        List.cons.injEq]
      constructor
      · rintro ⟨rfl, s, rfl⟩; exact ⟨s, rfl, rfl⟩
      · rintro ⟨s, rfl, rfl⟩; exact ⟨rfl, s, rfl⟩

theorem listHasSub_iff (l n : List Char) :
    listHasSub l n = true ↔ ∃ p s, l = p ++ n ++ s := by
  induction l with
  | nil =>
    simp only [listHasSub, List.isEmpty_iff]
    constructor
    · rintro rfl; exact ⟨[], [], rfl⟩
    · rintro ⟨p, s, h⟩
      rcases List.append_eq_nil.mp h.symm with ⟨h1, h2⟩
      exact (List.append_eq_nil.mp h1).2
  | cons h t ih =>
    simp only [listHasSub, Bool.or_eq_true, listStartsWith_iff, ih]
    constructor
    · rintro (⟨s, hs⟩ | ⟨p, s, hs⟩)
      · exact ⟨[], s, by simp [hs]⟩
      · exact ⟨h :: p, s, by simp [hs]⟩
    · rintro ⟨p, s, hs⟩
      cases p with
      | nil => exact Or.inl ⟨s, by simpa using hs⟩
      | cons q qs =>
        right
        simp only [List.cons_append, List.cons.injEq] at hs
        exact ⟨qs, s, hs.2⟩

/-! ## Lemmas about the dedup-cache operations -/

theorem claimIds_fst (ids : List Nat) (c : Finset Nat) :
    (claimIds c ids).1 = c ∪ ids.toFinset := by
  induction ids generalizing c with
  | nil => simp [claimIds]
  | cons i is ih =>
    by_cases h : i ∈ c
    · rw [claimIds, if_pos h, ih]
      ext x
      simp only [Finset.mem_union, List.toFinset_cons, Finset.mem_insert, List.mem_toFinset]
      constructor
      · rintro (hx | hx)
        · exact Or.inl hx
        · exact Or.inr (Or.inr hx)
      · rintro (hx | rfl | hx)
        · exact Or.inl hx
        · exact Or.inl h
        · exact Or.inr hx
    · rw [claimIds, if_neg h]
      show (claimIds (insert i c) is).1 = _
      rw [ih]
      ext x
      simp only [Finset.mem_union, Finset.mem_insert, List.toFinset_cons, List.mem_toFinset]
      tauto

theorem mem_claimIds_snd (ids : List Nat) (c : Finset Nat) (x : Nat) :
    x ∈ (claimIds c ids).2 ↔ x ∈ ids ∧ x ∉ c := by
  induction ids generalizing c with
  | nil => simp [claimIds]
  | cons i is ih =>
    by_cases h : i ∈ c
    · rw [claimIds, if_pos h]
      simp only [ih, List.mem_cons]
      constructor
      · rintro ⟨hx, hc⟩
        exact ⟨Or.inr hx, hc⟩
      · rintro ⟨hx | hx, hc⟩
        · subst hx; exact absurd h hc
        · exact ⟨hx, hc⟩
    · rw [claimIds, if_neg h]
      show x ∈ i :: (claimIds (insert i c) is).2 ↔ _
      simp only [List.mem_cons, ih, Finset.mem_insert]
      constructor
      · rintro (rfl | ⟨hx, hc⟩)
        · exact ⟨Or.inl rfl, h⟩
        · exact ⟨Or.inr hx, fun hxc => hc (Or.inr hxc)⟩
      · rintro ⟨rfl | hx, hc⟩
        · exact Or.inl rfl
        · by_cases hxi : x = i
          · exact Or.inl hxi
          · exact Or.inr ⟨hx, fun hin => hin.elim hxi hc⟩

theorem releaseIds_eq (l : List Nat) (c : Finset Nat) :
    releaseIds c l = c \ l.toFinset := by
  induction l generalizing c with
  | nil => simp [releaseIds]
  | cons i is ih =>
    show releaseIds (c.erase i) is = _
    rw [ih]
    ext x
    simp only [Finset.mem_sdiff, Finset.mem_erase, List.toFinset_cons, Finset.mem_insert,
      List.mem_toFinset]
    tauto

/-- Releasing exactly the ids newly claimed restores the original cache. -/
theorem releaseIds_claimIds (ids : List Nat) (c : Finset Nat) :
    releaseIds (claimIds c ids).1 (claimIds c ids).2 = c := by
  ext x
  simp only [releaseIds_eq, claimIds_fst, Finset.mem_sdiff, Finset.mem_union,
    List.mem_toFinset, mem_claimIds_snd]
  tauto

/-! ## Lemmas about the handlers -/

/-- The message handler never modifies the dedup cache, on any path. -/
theorem handleMessage_cache_eq (st : FwdState) (src : Int) (m : Msg)
    (dest : Int) (k : List String) (a : Nat → AttemptRes) :
    (handleMessage st src m dest k a).cache = st.cache := by
  unfold handleMessage
  split
  · rfl
  · split
    · dsimp only
      split <;> rfl
    · rfl

theorem handleMessage_of_mem_cache (st : FwdState) (src : Int) (m : Msg)
    (dest : Int) (k : List String) (a : Nat → AttemptRes) (h : m.id ∈ st.cache) :
    handleMessage st src m dest k a = st := by
  unfold handleMessage
  rw [if_pos h]

/-- The message handler either leaves the forward log alone or appends the
single record for its own message id. -/
theorem handleMessage_fwdLog (st : FwdState) (src : Int) (m : Msg)
    (dest : Int) (k : List String) (a : Nat → AttemptRes) :
    (handleMessage st src m dest k a).fwdLog = st.fwdLog ∨
    (handleMessage st src m dest k a).fwdLog = st.fwdLog ++ [⟨[m.id], false⟩] := by
  unfold handleMessage
  split
  · exact Or.inl rfl
  · split
    · dsimp only
      split
      · exact Or.inr rfl
      · exact Or.inl rfl
    · exact Or.inl rfl

theorem fwdCount_mk (i : Nat) (c : Finset Nat) (l : List FwdRec)
    (h : List HistRec) (s : List Nat) :
    fwdCount i ⟨c, l, h, s⟩ = l.countP (fun r => r.ids.contains i) := rfl

theorem countP_append_rec (i : Nat) (l : List FwdRec) (r : FwdRec) :
    (l ++ [r]).countP (fun rc => rc.ids.contains i)
      = l.countP (fun rc => rc.ids.contains i) + (if i ∈ r.ids then 1 else 0) := by
  rw [List.countP_append]
  by_cases h : i ∈ r.ids <;> simp [List.countP_cons, h]

/-- Full characterization of the album handler past its two guards. -/
theorem handleAlbum_go (st : FwdState) (src : Int) (mems : List Msg) (cap : String)
    (dest : Int) (k : List String) (a : Nat → AttemptRes)
    (hne : mems ≠ []) (hkw : albumKwMatch k cap = true) :
    handleAlbum st src mems cap dest k a =
      if (forwardExec a true).success then
        ⟨(claimIds st.cache (mems.map (fun m => m.id))).1,
         st.fwdLog ++ [⟨mems.map (fun m => m.id), true⟩],
         st.history ++ [⟨src, dest, mems.map (fun m => m.id), k, true⟩],
         st.sleeps ++ (forwardExec a true).sleeps⟩
      else
        ⟨releaseIds (claimIds st.cache (mems.map (fun m => m.id))).1
           (claimIds st.cache (mems.map (fun m => m.id))).2,
         st.fwdLog, st.history, st.sleeps ++ (forwardExec a true).sleeps⟩ := by
  unfold handleAlbum
  rw [if_neg (by simp [hne]), if_pos hkw]

/-- Full characterization of the message handler past its two guards. -/
theorem handleMessage_go (st : FwdState) (src : Int) (m : Msg)
    (dest : Int) (k : List String) (a : Nat → AttemptRes)
    (hc : m.id ∉ st.cache) (hm : msgKwMatch k m.text = true) :
    handleMessage st src m dest k a =
      if (forwardExec a false).success then
        ⟨st.cache, st.fwdLog ++ [⟨[m.id], false⟩],
         st.history ++ [⟨src, dest, [m.id], k, false⟩],
         st.sleeps ++ (forwardExec a false).sleeps⟩
      else ⟨st.cache, st.fwdLog, st.history, st.sleeps ++ (forwardExec a false).sleeps⟩ := by
  unfold handleMessage
  rw [if_neg hc, if_pos hm]

theorem fwdCount_congr (i : Nat) (st₁ st₂ : FwdState) (h : st₁.fwdLog = st₂.fwdLog) :
    fwdCount i st₁ = fwdCount i st₂ := by
  unfold fwdCount
  rw [h]

/-- An album event not containing id `i` neither changes whether `i` is
cached nor forwards `i`. -/
theorem handleAlbum_not_mem (st : FwdState) (src : Int) (mems : List Msg) (cap : String)
    (dest : Int) (k : List String) (a : Nat → AttemptRes) (i : Nat)
    (hni : i ∉ mems.map (fun m => m.id)) :
    (i ∈ (handleAlbum st src mems cap dest k a).cache ↔ i ∈ st.cache) ∧
    fwdCount i (handleAlbum st src mems cap dest k a) = fwdCount i st := by
  unfold handleAlbum
  split
  · exact ⟨Iff.rfl, rfl⟩
  · split
    · dsimp only
      split
      · constructor
        · rw [claimIds_fst]
          simp only [Finset.mem_union, List.mem_toFinset]
          exact ⟨fun h => h.elim id (fun h2 => absurd h2 hni), Or.inl⟩
        · show (st.fwdLog ++ [(⟨mems.map (fun m => m.id), true⟩ : FwdRec)]).countP (fun r => r.ids.contains i) = _
          rw [countP_append_rec, if_neg hni]
          rfl
      · constructor
        · rw [releaseIds_eq, claimIds_fst]
          simp only [Finset.mem_sdiff, Finset.mem_union, List.mem_toFinset,
            mem_claimIds_snd]
          constructor
          · rintro ⟨hu, _⟩
            exact hu.elim id (fun h2 => absurd h2 hni)
          · intro h
            exact ⟨Or.inl h, fun hx => hni hx.1⟩
        · rfl
    · exact ⟨Iff.rfl, rfl⟩

/-- A successful album forward containing `i` caches `i` and forwards it
exactly once. -/
theorem handleAlbum_success_mem (st : FwdState) (src : Int) (mems : List Msg)
    (cap : String) (dest : Int) (k : List String) (a : Nat → AttemptRes) (i : Nat)
    (hkw : albumKwMatch k cap = true) (hi : i ∈ mems.map (fun m => m.id))
    (hs : (forwardExec a true).success = true) :
    i ∈ (handleAlbum st src mems cap dest k a).cache ∧
    fwdCount i (handleAlbum st src mems cap dest k a) = fwdCount i st + 1 := by
  have hne : mems ≠ [] := by
    intro h
    rw [h] at hi
    exact absurd hi (List.not_mem_nil i)
  rw [handleAlbum_go st src mems cap dest k a hne hkw, if_pos hs]
  constructor
  · rw [claimIds_fst]
    simp only [Finset.mem_union, List.mem_toFinset]
    exact Or.inr hi
  · show (st.fwdLog ++ [(⟨mems.map (fun m => m.id), true⟩ : FwdRec)]).countP (fun r => r.ids.contains i) = _
    rw [countP_append_rec, if_pos hi]
    rfl

/-- A failed album forward leaves the cache, the forward log and the
history exactly as they were. -/
theorem handleAlbum_failure (st : FwdState) (src : Int) (mems : List Msg)
    (cap : String) (dest : Int) (k : List String) (a : Nat → AttemptRes)
    (hf : (forwardExec a true).success = false) :
    (handleAlbum st src mems cap dest k a).cache = st.cache ∧
    (handleAlbum st src mems cap dest k a).fwdLog = st.fwdLog ∧
    (handleAlbum st src mems cap dest k a).history = st.history := by
  unfold handleAlbum
  split
  · exact ⟨rfl, rfl, rfl⟩
  · split
    · dsimp only
      split
      · rename_i hs
        rw [hf] at hs
        exact absurd hs (by simp)
      · exact ⟨releaseIds_claimIds _ _, rfl, rfl⟩
    · exact ⟨rfl, rfl, rfl⟩

/-! ## Trace lemmas for the at-most-once invariant -/

/-- While `i` is cached, any event that is neither an album containing `i`
nor the eviction of `i` keeps `i` cached and performs no forward of `i`. -/
theorem step_preserve (i : Nat) (st : FwdState) (ev : Ev)
    (ha : evIsAlbumWith i ev = false) (he : evIsEvict i ev = false)
    (hc : i ∈ st.cache) :
    i ∈ (step st ev).cache ∧ fwdCount i (step st ev) = fwdCount i st := by
  cases ev with
  | album src mems cap dest k a =>
    have hni : i ∉ mems.map (fun m => m.id) := by
      simp only [evIsAlbumWith, List.elem_eq_mem, decide_eq_false_iff_not] at ha
      exact ha
    have h := handleAlbum_not_mem st src mems cap dest k a i hni
    exact ⟨h.1.mpr hc, h.2⟩
  | msg src m dest k a =>
    by_cases hm : m.id = i
    · rw [step, handleMessage_of_mem_cache st src m dest k a (hm ▸ hc)]
      exact ⟨hc, rfl⟩
    · refine ⟨(handleMessage_cache_eq st src m dest k a) ▸ hc, ?_⟩
      rcases handleMessage_fwdLog st src m dest k a with h | h
      · exact fwdCount_congr i _ st h
      · show fwdCount i (handleMessage st src m dest k a) = _
        unfold fwdCount
        rw [h, countP_append_rec, if_neg (by simp [Ne.symm hm])]
        rfl
  | evict j =>
    have hj : j ≠ i := by
      simpa [evIsEvict] using he
    exact ⟨Finset.mem_erase.mpr ⟨fun h => hj h.symm, hc⟩, rfl⟩

/-- Any event that is not an album containing `i` forwards `i` at most
once, and only if it is the single-message notification for `i`. -/
theorem step_bound (i : Nat) (st : FwdState) (ev : Ev)
    (ha : evIsAlbumWith i ev = false) :
    fwdCount i (step st ev) ≤ fwdCount i st + (if evIsMsgFor i ev then 1 else 0) := by
  cases ev with
  | album src mems cap dest k a =>
    have hni : i ∉ mems.map (fun m => m.id) := by
      simp only [evIsAlbumWith, List.elem_eq_mem, decide_eq_false_iff_not] at ha
      exact ha
    simp only [step]
    rw [(handleAlbum_not_mem st src mems cap dest k a i hni).2]
    exact Nat.le_add_right _ _
  | msg src m dest k a =>
    simp only [step]
    rcases handleMessage_fwdLog st src m dest k a with h | h
    · rw [fwdCount_congr i _ st h]
      exact Nat.le_add_right _ _
    · unfold fwdCount
      rw [h, countP_append_rec]
      by_cases hm : m.id = i
      · have h1 : evIsMsgFor i (Ev.msg src m dest k a) = true := by
          simp [evIsMsgFor, hm]
        have h2 : i ∈ [m.id] := by simp [hm]
        rw [h1, if_pos h2]
        simp
      · rw [if_neg (by simp [Ne.symm hm])]
        exact Nat.le_add_right _ _
  | evict j =>
    exact Nat.le_add_right _ _

/-- `step_preserve` folded over a trace. -/
theorem run_preserve (i : Nat) (tr : List Ev) (st : FwdState)
    (h : ∀ ev ∈ tr, evIsAlbumWith i ev = false ∧ evIsEvict i ev = false)
    (hc : i ∈ st.cache) :
    i ∈ (run st tr).cache ∧ fwdCount i (run st tr) = fwdCount i st := by
  induction tr generalizing st with
  | nil => exact ⟨hc, rfl⟩
  | cons ev tr ih =>
    have hev := h ev (List.mem_cons_self ev tr)
    have h1 := step_preserve i st ev hev.1 hev.2 hc
    have h2 := ih (step st ev) (fun e he => h e (List.mem_cons_of_mem ev he)) h1.1
    exact ⟨h2.1, h2.2.trans h1.2⟩

/-- `step_bound` folded over a trace. -/
theorem run_bound (i : Nat) (tr : List Ev) (st : FwdState)
    (h : ∀ ev ∈ tr, evIsAlbumWith i ev = false) :
    fwdCount i (run st tr) ≤ fwdCount i st + tr.countP (evIsMsgFor i) := by
  induction tr generalizing st with
  | nil => exact Nat.le_refl _
  | cons ev tr ih =>
    have h1 := step_bound i st ev (h ev (List.mem_cons_self ev tr))
    have h2 := ih (step st ev) (fun e he => h e (List.mem_cons_of_mem ev he))
    calc fwdCount i (run (step st ev) tr)
        ≤ fwdCount i (step st ev) + tr.countP (evIsMsgFor i) := h2
      _ ≤ fwdCount i st + (if evIsMsgFor i ev then 1 else 0) + tr.countP (evIsMsgFor i) :=
          Nat.add_le_add_right h1 _
      _ = fwdCount i st + (ev :: tr).countP (evIsMsgFor i) := by
          rw [List.countP_cons]
          omega

theorem run_append (st : FwdState) (l₁ l₂ : List Ev) :
    run st (l₁ ++ l₂) = run (run st l₁) l₂ := by
  simp [run, List.foldl_append]

/-- C1: for an album passing the keyword filter, as long as the platform
delivers each member id in at most one album notification and at most one
single-message notification, a member id `i` is forwarded at most once
from the album notification up to `i`'s timed cache eviction — either by
the album batch, or (when the batch forward fails) by at most one later
fallback single forward, never both: the ids are cached before the batch
forward is attempted and the message handler drops cached ids. -/
theorem c1_album_member_forwarded_at_most_once
    (i : Nat) (pre post : List Ev) (src : Int) (mems : List Msg) (cap : String)
    (dest : Int) (k : List String) (a : Nat → AttemptRes)
    (hmem : i ∈ mems.map (fun m => m.id))
    (hkw : albumKwMatch k cap = true)
    (honeAlbum : (pre ++ post).countP (evIsAlbumWith i) = 0)
    (honeMsg : (pre ++ Ev.album src mems cap dest k a :: post).countP (evIsMsgFor i) ≤ 1) :
    fwdCount i (run initState
        (pre ++ Ev.album src mems cap dest k a :: post.takeWhile (fun e => !evIsEvict i e)))
      ≤ fwdCount i (run initState pre) + 1 := by
  have hzero := List.countP_eq_zero.mp honeAlbum
  have hpostA : ∀ e ∈ post.takeWhile (fun e => !evIsEvict i e), evIsAlbumWith i e = false := by
    intro e he
    have : e ∈ post := (List.takeWhile_sublist _).subset he
    have := hzero e (List.mem_append_right pre this)
    simpa using this
  have hpostE : ∀ e ∈ post.takeWhile (fun e => !evIsEvict i e), evIsEvict i e = false := by
    intro e he
    have := List.mem_takeWhile_imp he
    simpa using this
  rw [run_append]
  show fwdCount i (run (step (run initState pre) (Ev.album src mems cap dest k a)) _) ≤ _
  set st₁ := run initState pre with hst₁
  by_cases hs : (forwardExec a true).success = true
  · -- batch forward succeeded: i is cached, forwarded once by the batch,
    -- and single notifications for i are suppressed until eviction
    have h2 := handleAlbum_success_mem st₁ src mems cap dest k a i hkw hmem hs
    have h3 := run_preserve i (post.takeWhile (fun e => !evIsEvict i e))
      (handleAlbum st₁ src mems cap dest k a)
      (fun e he => ⟨hpostA e he, hpostE e he⟩) h2.1
    show fwdCount i (run (handleAlbum st₁ src mems cap dest k a) _) ≤ _
    rw [h3.2, h2.2]
  · -- batch forward failed: nothing was forwarded by the album handler,
    -- and at most the one single notification for i forwards it later
    have hf : (forwardExec a true).success = false := by
      simpa using hs
    have h2 := handleAlbum_failure st₁ src mems cap dest k a hf
    have hcnt : fwdCount i (handleAlbum st₁ src mems cap dest k a) = fwdCount i st₁ :=
      fwdCount_congr i _ st₁ h2.2.1
    have h3 := run_bound i (post.takeWhile (fun e => !evIsEvict i e))
      (handleAlbum st₁ src mems cap dest k a) hpostA
    have hpostM : (post.takeWhile (fun e => !evIsEvict i e)).countP (evIsMsgFor i) ≤ 1 := by
      have hsub : (post.takeWhile (fun e => !evIsEvict i e)).countP (evIsMsgFor i)
          ≤ post.countP (evIsMsgFor i) :=
        List.Sublist.countP_le _ (List.takeWhile_sublist _)
      have : post.countP (evIsMsgFor i) ≤ 1 := by
        rw [List.countP_append, List.countP_cons] at honeMsg
        omega
      omega
    show fwdCount i (run (handleAlbum st₁ src mems cap dest k a) _) ≤ _
    calc fwdCount i (run (handleAlbum st₁ src mems cap dest k a)
            (post.takeWhile (fun e => !evIsEvict i e)))
        ≤ fwdCount i (handleAlbum st₁ src mems cap dest k a)
            + (post.takeWhile (fun e => !evIsEvict i e)).countP (evIsMsgFor i) := h3
      _ ≤ fwdCount i st₁ + 1 := by
          rw [hcnt]
          exact Nat.add_le_add_left hpostM _

/-! ## Keyword filter bridge lemmas -/

theorem containsKw_iff (t kw : String) :
    containsKw t kw = true ↔ ∃ p s, (lowerStr t).data = p ++ (lowerStr kw).data ++ s := by
  unfold containsKw
  exact listHasSub_iff _ _

theorem anyContainsKw_iff (k : List String) (t : String) :
    k.any (fun kw => containsKw t kw) = true ↔
      ∃ kw ∈ k, ∃ p s, (lowerStr t).data = p ++ (lowerStr kw).data ++ s := by
  simp only [List.any_eq_true, containsKw_iff]

/-- The single-message keyword filter, characterized the way the spec
words it: empty keyword set, or non-empty text containing some keyword
(case-insensitively) as a substring. -/
theorem msgKwMatch_iff (k : List String) (t : String) :
    msgKwMatch k t = true ↔
      k = [] ∨ (t ≠ "" ∧ ∃ kw ∈ k, ∃ p s,
        (lowerStr t).data = p ++ (lowerStr kw).data ++ s) := by
  unfold msgKwMatch
  by_cases hk : k.isEmpty = true
  · rw [if_pos hk]
    simp [List.isEmpty_iff.mp hk]
  · rw [if_neg hk]
    by_cases hq : ((t != "") && k.any (fun kw => containsKw t kw)) = true
    · rw [if_pos hq]
      simp only [Bool.and_eq_true, bne_iff_ne, ne_eq] at hq
      simp only [true_iff]
      exact Or.inr ⟨hq.1, (anyContainsKw_iff k t).mp hq.2⟩
    · rw [if_neg hq]
      simp only [Bool.false_eq_true, false_iff]
      rintro (rfl | ⟨ht, hex⟩)
      · exact hk rfl
      · refine hq ?_
        simp only [Bool.and_eq_true, bne_iff_ne, ne_eq]
        exact ⟨ht, (anyContainsKw_iff k t).mpr hex⟩

theorem handleMessage_of_no_match (st : FwdState) (src : Int) (m : Msg)
    (dest : Int) (k : List String) (a : Nat → AttemptRes)
    (hc : m.id ∉ st.cache) (hm : msgKwMatch k m.text = false) :
    handleMessage st src m dest k a = st := by
  unfold handleMessage
  rw [if_neg hc, if_neg (by simp [hm])]

/-- C9: on every path of the message handler (cache-hit skip, group-id
fall-through, keyword skip, successful forward, failed forward, failed
retry) the dedup cache is returned exactly as it was: the handler only
reads membership and never inserts or removes entries. -/
theorem c9_message_handler_never_touches_cache (st : FwdState) (src : Int) (m : Msg)
    (dest : Int) (k : List String) (a : Nat → AttemptRes) :
    (handleMessage st src m dest k a).cache = st.cache :=
  handleMessage_cache_eq st src m dest k a

/-- C3: when the album forward attempt fails (including a failed
rate-limit retry), every id newly claimed by this invocation is gone from
the cache when the invocation returns, ids cached before the invocation
are still cached, and no history record is written. -/
theorem c3_failed_album_releases_claimed_ids (st : FwdState) (src : Int)
    (mems : List Msg) (cap : String) (dest : Int) (k : List String)
    (a : Nat → AttemptRes)
    (hf : (forwardExec a true).success = false) :
    (handleAlbum st src mems cap dest k a).cache = st.cache
    ∧ (∀ j ∈ (claimIds st.cache (mems.map (fun m => m.id))).2,
        j ∉ (handleAlbum st src mems cap dest k a).cache)
    ∧ (∀ j ∈ st.cache, j ∈ (handleAlbum st src mems cap dest k a).cache)
    ∧ (handleAlbum st src mems cap dest k a).history = st.history := by
  have h := handleAlbum_failure st src mems cap dest k a hf
  refine ⟨h.1, ?_, ?_, h.2.2⟩
  · intro j hj
    rw [h.1]
    exact ((mem_claimIds_snd _ _ j).mp hj).2
  · intro j hj
    rw [h.1]
    exact hj

theorem c3_witness :
    (forwardExec (fun _ => AttemptRes.exc) true).success = false
    ∧ (handleAlbum ⟨{5}, [], [], []⟩ 100 [⟨1, "x", some 9⟩] "x" 200 []
        (fun _ => AttemptRes.exc)).cache = ({5} : Finset Nat)
    ∧ (handleAlbum ⟨{5}, [], [], []⟩ 100 [⟨1, "x", some 9⟩] "x" 200 []
        (fun _ => AttemptRes.exc)).history = [] :=
  ⟨by decide,
   (c3_failed_album_releases_claimed_ids ⟨{5}, [], [], []⟩ 100 [⟨1, "x", some 9⟩] "x" 200 []
     (fun _ => AttemptRes.exc) (by decide)).1,
   (c3_failed_album_releases_claimed_ids ⟨{5}, [], [], []⟩ 100 [⟨1, "x", some 9⟩] "x" 200 []
     (fun _ => AttemptRes.exc) (by decide)).2.2.2⟩

/-- C5: cache membership of the message's own id is the sole suppression
mechanism of the message handler: a cached id is dropped without any
state change, and for an uncached id the outcome is independent of the
group identifier the message carries. -/
theorem c5_cache_membership_sole_suppression (st : FwdState) (src : Int) (m : Msg)
    (dest : Int) (k : List String) (a : Nat → AttemptRes) :
    (m.id ∈ st.cache → handleMessage st src m dest k a = st)
    ∧ (m.id ∉ st.cache → ∀ g : Option Nat,
        handleMessage st src ⟨m.id, m.text, g⟩ dest k a
          = handleMessage st src ⟨m.id, m.text, none⟩ dest k a) := by
  constructor
  · exact handleMessage_of_mem_cache st src m dest k a
  · intro _ _
    rfl

theorem c5_witness :
    ((3 : Nat) ∈ (⟨{3}, [], [], []⟩ : FwdState).cache)
    ∧ handleMessage ⟨{3}, [], [], []⟩ 100 ⟨3, "t", some 1⟩ 200 []
        (fun _ => AttemptRes.ok true) = ⟨{3}, [], [], []⟩ :=
  ⟨by decide,
   (c5_cache_membership_sole_suppression ⟨{3}, [], [], []⟩ 100 ⟨3, "t", some 1⟩ 200 []
     (fun _ => AttemptRes.ok true)).1 (by decide)⟩

/-- C6: for a message that is not suppressed by the cache and whose
forward attempt would succeed, the handler forwards it exactly when the
keyword set is empty, or the text is non-empty and contains some
configured keyword case-insensitively; otherwise it returns with the
state unchanged. -/
theorem c6_single_forward_iff_keyword_match (st : FwdState) (src : Int) (m : Msg)
    (dest : Int) (k : List String) (a : Nat → AttemptRes)
    (hc : m.id ∉ st.cache) (hs : (forwardExec a false).success = true) :
    ((handleMessage st src m dest k a).fwdLog = st.fwdLog ++ [⟨[m.id], false⟩]
      ↔ (k = [] ∨ (m.text ≠ "" ∧ ∃ kw ∈ k, ∃ p s,
          (lowerStr m.text).data = p ++ (lowerStr kw).data ++ s)))
    ∧ (¬(k = [] ∨ (m.text ≠ "" ∧ ∃ kw ∈ k, ∃ p s,
          (lowerStr m.text).data = p ++ (lowerStr kw).data ++ s))
        → handleMessage st src m dest k a = st) := by
  by_cases hm : msgKwMatch k m.text = true
  · have hcond := (msgKwMatch_iff k m.text).mp hm
    rw [handleMessage_go st src m dest k a hc hm, if_pos hs]
    exact ⟨iff_of_true rfl hcond, fun h => absurd hcond h⟩
  · have hmf : msgKwMatch k m.text = false := by
      simpa using hm
    have hcond : ¬(k = [] ∨ (m.text ≠ "" ∧ ∃ kw ∈ k, ∃ p s,
        (lowerStr m.text).data = p ++ (lowerStr kw).data ++ s)) := by
      intro h
      rw [(msgKwMatch_iff k m.text).mpr h] at hmf
      exact Bool.true_eq_false.mp hmf
    rw [handleMessage_of_no_match st src m dest k a hc hmf]
    refine ⟨?_, fun _ => rfl⟩
    simp only [hcond, iff_false]
    intro h
    have := congrArg List.length h
    simp at this

theorem c1_witness :
    ((1 : Nat) ∈ ([⟨1, "hello", some 9⟩] : List Msg).map (fun m => m.id))
    ∧ albumKwMatch [] "hello" = true
    ∧ (([] ++ [Ev.msg 100 ⟨1, "hello", some 9⟩ 200 [] okAttempt]).countP (evIsAlbumWith 1) = 0)
    ∧ (([] ++ Ev.album 100 [⟨1, "hello", some 9⟩] "hello" 200 [] okAttempt
          :: [Ev.msg 100 ⟨1, "hello", some 9⟩ 200 [] okAttempt]).countP (evIsMsgFor 1) ≤ 1)
    ∧ fwdCount 1 (run initState
        ([] ++ Ev.album 100 [⟨1, "hello", some 9⟩] "hello" 200 [] okAttempt
          :: ([Ev.msg 100 ⟨1, "hello", some 9⟩ 200 [] okAttempt].takeWhile
               (fun e => !evIsEvict 1 e))))
        ≤ fwdCount 1 (run initState []) + 1 :=
  ⟨by decide, by decide, by decide, by decide,
   c1_album_member_forwarded_at_most_once 1 []
     [Ev.msg 100 ⟨1, "hello", some 9⟩ 200 [] okAttempt]
     100 [⟨1, "hello", some 9⟩] "hello" 200 [] okAttempt
     (by decide) (by decide) (by decide) (by decide)⟩

/-- C2 counterexample: the album caption fails the keyword filter, so the
album handler claims nothing — yet member 2, whose own text matches, is
forwarded by the message handler afterwards. -/
theorem c2_counterexample :
    albumKwMatch ["urgent"] "hello" = false
    ∧ (2 : Nat) ∈ c2mems.map (fun m => m.id)
    ∧ fwdCount 2 (run initState
        [Ev.album 100 c2mems "hello" 200 ["urgent"] okAttempt,
         Ev.msg 100 ⟨2, "urgent", some 7⟩ 200 ["urgent"] okAttempt]) = 1 := by
  decide

/-- C2 amended: when the album caption fails the keyword filter the album
handler forwards and claims nothing (the state is unchanged); a member is
nevertheless forwarded later by the message handler exactly when its own
text passes the keyword filter. -/
theorem c2_album_caption_mismatch (st : FwdState) (src : Int) (mems : List Msg)
    (cap : String) (dest : Int) (k : List String) (a a2 : Nat → AttemptRes)
    (hkw : albumKwMatch k cap = false) :
    handleAlbum st src mems cap dest k a = st
    ∧ (∀ m ∈ mems, m.id ∉ st.cache → msgKwMatch k m.text = false →
        handleMessage st src m dest k a2 = st)
    ∧ (∀ m ∈ mems, m.id ∉ st.cache → msgKwMatch k m.text = true →
        (forwardExec a2 false).success = true →
        (handleMessage st src m dest k a2).fwdLog = st.fwdLog ++ [⟨[m.id], false⟩]) := by
  refine ⟨?_, ?_, ?_⟩
  · unfold handleAlbum
    split
    · rfl
    · rw [if_neg (by simp [hkw])]
  · intro m _ hc hm
    exact handleMessage_of_no_match st src m dest k a2 hc hm
  · intro m _ hc hm hs
    rw [handleMessage_go st src m dest k a2 hc hm, if_pos hs]

theorem c2_witness :
    albumKwMatch ["urgent"] "hello" = false
    ∧ handleAlbum initState 100 c2mems "hello" 200 ["urgent"] okAttempt = initState
    ∧ (handleMessage initState 100 ⟨2, "urgent", some 7⟩ 200 ["urgent"] okAttempt).fwdLog
        = [] ++ [⟨[2], false⟩] :=
  ⟨by decide,
   (c2_album_caption_mismatch initState 100 c2mems "hello" 200 ["urgent"]
     okAttempt okAttempt (by decide)).1,
   (c2_album_caption_mismatch initState 100 c2mems "hello" 200 ["urgent"]
     okAttempt okAttempt (by decide)).2.2 ⟨2, "urgent", some 7⟩ (by decide)
     (by decide) (by decide) (by decide)⟩

/-- C4: rate-limit handling of the forward executor and its callers.
On a FloodWait carrying wait `w`, the executor sleeps exactly `w + 1`
seconds and consumes exactly one retry attempt; with no FloodWait on the
first attempt, exactly one attempt is consumed and nothing is slept; the
attempt succeeds exactly when the first attempt succeeds or the single
retry after a FloodWait succeeds; and each handler writes exactly one
history record precisely when its forward attempt succeeds. -/
theorem c4_floodwait_retry_once :
    (∀ (a : Nat → AttemptRes) (cE : Bool) (w : Nat), a 0 = AttemptRes.flood w →
        (forwardExec a cE).sleeps = [w + 1] ∧ (forwardExec a cE).attempts = 2)
    ∧ (∀ (a : Nat → AttemptRes) (cE : Bool), (∀ w, a 0 ≠ AttemptRes.flood w) →
        (forwardExec a cE).attempts = 1 ∧ (forwardExec a cE).sleeps = [])
    ∧ (∀ a : Nat → AttemptRes, (forwardExec a true).success = true ↔
        (a 0 = AttemptRes.ok true ∨ ∃ w, a 0 = AttemptRes.flood w ∧ a 1 = AttemptRes.ok true))
    ∧ (∀ a : Nat → AttemptRes, (forwardExec a false).success = true ↔
        ((∃ b, a 0 = AttemptRes.ok b) ∨ ∃ w b, a 0 = AttemptRes.flood w ∧ a 1 = AttemptRes.ok b))
    ∧ (∀ (st : FwdState) (src : Int) (mems : List Msg) (cap : String) (dest : Int)
        (k : List String) (a : Nat → AttemptRes), mems ≠ [] → albumKwMatch k cap = true →
        (handleAlbum st src mems cap dest k a).history
          = if (forwardExec a true).success
            then st.history ++ [⟨src, dest, mems.map (fun m => m.id), k, true⟩]
            else st.history)
    ∧ (∀ (st : FwdState) (src : Int) (m : Msg) (dest : Int) (k : List String)
        (a : Nat → AttemptRes), m.id ∉ st.cache → msgKwMatch k m.text = true →
        (handleMessage st src m dest k a).history
          = if (forwardExec a false).success
            then st.history ++ [⟨src, dest, [m.id], k, false⟩]
            else st.history) := by
  refine ⟨?_, ?_, ?_, ?_, ?_, ?_⟩
  · intro a cE w h
    cases h1 : a 1 <;> simp [forwardExec, h, h1]
  · intro a cE hne
    cases h0 : a 0 with
    | ok b => simp [forwardExec, h0]
    | flood w => exact absurd h0 (hne w)
    | exc => simp [forwardExec, h0]
  · intro a
    cases h0 : a 0 with
    | ok b => cases b <;> simp [forwardExec, h0]
    | flood w =>
      cases h1 : a 1 with
      | ok b => cases b <;> simp [forwardExec, h0, h1]
      | flood v => simp [forwardExec, h0, h1]
      | exc => simp [forwardExec, h0, h1]
    | exc => simp [forwardExec, h0]
  · intro a
    cases h0 : a 0 with
    | ok b => simp [forwardExec, h0]
    | flood w =>
      cases h1 : a 1 with
      | ok b => simp [forwardExec, h0, h1]
      | flood v => simp [forwardExec, h0, h1]
      | exc => simp [forwardExec, h0, h1]
    | exc => simp [forwardExec, h0]
  · intro st src mems cap dest k a hne hkw
    rw [handleAlbum_go st src mems cap dest k a hne hkw]
    by_cases hs : (forwardExec a true).success = true
    · rw [if_pos hs, if_pos hs]
    · rw [if_neg hs, if_neg hs]
  · intro st src m dest k a hc hm
    rw [handleMessage_go st src m dest k a hc hm]
    by_cases hs : (forwardExec a false).success = true
    · rw [if_pos hs, if_pos hs]
    · rw [if_neg hs, if_neg hs]

theorem c4_witness :
    floodThenOk 0 = AttemptRes.flood 5
    ∧ (forwardExec floodThenOk true).sleeps = [5 + 1]
    ∧ (forwardExec floodThenOk true).attempts = 2
    ∧ ([(⟨1, "x", none⟩ : Msg)] ≠ [])
    ∧ albumKwMatch [] "c" = true
    ∧ (handleAlbum initState 100 [⟨1, "x", none⟩] "c" 200 [] floodThenOk).history
        = if (forwardExec floodThenOk true).success
          then ([] : List HistRec) ++ [⟨100, 200, [1], [], true⟩]
          else [] :=
  ⟨rfl,
   (c4_floodwait_retry_once.1 floodThenOk true 5 rfl).1,
   (c4_floodwait_retry_once.1 floodThenOk true 5 rfl).2,
   by decide, by decide,
   c4_floodwait_retry_once.2.2.2.2.1 initState 100 [⟨1, "x", none⟩] "c" 200 [] floodThenOk
     (by decide) (by decide)⟩

theorem c6_witness :
    ((4 : Nat) ∉ initState.cache)
    ∧ (forwardExec okAttempt false).success = true
    ∧ (handleMessage initState 100 ⟨4, "Urgent: meeting", none⟩ 200 ["urgent"]
        okAttempt).fwdLog = [] ++ [⟨[4], false⟩] :=
  ⟨by decide, by decide,
   (c6_single_forward_iff_keyword_match initState 100 ⟨4, "Urgent: meeting", none⟩ 200
     ["urgent"] okAttempt (by decide) (by decide)).1.mpr
     (Or.inr ⟨by decide, "urgent", by decide, [], (": meeting").data, by decide⟩)⟩

/-- C7 counterexample: at a concrete input the history line produced by
the source differs from the spec's `[BATCH]`-tagged format — the source
tags album forwards `[ALBUM]` and single forwards `[MESSAGE]`. -/
theorem c7_counterexample :
    recordLine "2024-01-01 00:00:00" 100 200 [1, 2] ["kw"] true
      ≠ specHistoryLine "2024-01-01 00:00:00" 100 200 [1, 2] ["kw"] true := by
  decide

/-- C7 amended: for every completed forward with a non-empty id list the
history line is the tab-separated sequence timestamp, SRC:<ids>,
DEST:<id>, IDS:<comma-separated ids>, KWS:<comma-separated keywords or
ANY when none are configured>, and the batch/single tag written as
`[ALBUM]` for album forwards and `[MESSAGE]` for single forwards,
terminated by a newline. -/
theorem c7_history_line_format (t : String) (src dest : Int) (ids : List Nat)
    (kws : List String) (b : Bool) (hids : ids ≠ []) :
    recordLine t src dest ids kws b
      = t ++ "\t" ++ "SRC:" ++ toString src ++ "\t" ++ "DEST:" ++ toString dest
        ++ "\t" ++ "IDS:" ++ String.intercalate "," (ids.map toString)
        ++ "\t" ++ "KWS:" ++ (if kws = [] then "ANY" else String.intercalate "," kws)
        ++ "\t" ++ (if b then "[ALBUM]" else "[MESSAGE]") ++ "\n" := by
  unfold recordLine
  have h1 : ids.isEmpty = false := by
    simp [List.isEmpty_iff, hids]
  by_cases hk : kws = []
  · simp [h1, hk]
  · have h2 : kws.isEmpty = false := by
      simp [List.isEmpty_iff, hk]
    simp [h1, h2, hk]

theorem c7_witness :
    ([1, 2] : List Nat) ≠ []
    ∧ recordLine "2024-01-01 00:00:00" 100 200 [1, 2] [] true
      = "2024-01-01 00:00:00" ++ "\t" ++ "SRC:" ++ toString (100 : Int)
        ++ "\t" ++ "DEST:" ++ toString (200 : Int)
        ++ "\t" ++ "IDS:" ++ String.intercalate "," (([1, 2] : List Nat).map toString)
        ++ "\t" ++ "KWS:" ++ (if ([] : List String) = [] then "ANY"
            else String.intercalate "," [])
        ++ "\t" ++ (if true then "[ALBUM]" else "[MESSAGE]") ++ "\n" :=
  ⟨by decide,
   c7_history_line_format "2024-01-01 00:00:00" 100 200 [1, 2] [] true (by decide)⟩

/-- C8 at its failing input (the model of the code as written): starting
when already running and starting with no jobs are no-ops, stopping when
already stopped is a no-op — but a start/stop/start cycle over one job
leaves 4 registered handlers instead of 2, because
`remove_event_handler` is passed the bound methods while the registered
callbacks are `functools.partial` wrappers that compare by identity, so
nothing is ever removed and registrations accumulate. -/
theorem c8_restart_accumulates_handlers :
    startListening ⟨⟨[], false⟩, true, 0⟩ [⟨[100], 200, []⟩] = ⟨⟨[], false⟩, true, 0⟩
    ∧ startListening ⟨⟨[], false⟩, false, 0⟩ [] = ⟨⟨[], false⟩, false, 0⟩
    ∧ stopListening ⟨⟨[], false⟩, false, 0⟩ = ⟨⟨[], false⟩, false, 0⟩
    ∧ (startListening (stopListening (startListening ⟨⟨[], false⟩, false, 0⟩
          [⟨[100], 200, []⟩])) [⟨[100], 200, []⟩]).client.handlers.length = 4 := by
  decide

/-! ## Lemmas for the autorun loop -/

theorem loopFold_fst_le (k : List String) (l : List AMsg) (st : Nat × List Nat) :
    st.1 ≤ (l.foldl (fun acc m => (max acc.1 m.id,
      if autoKwMatch k m.text then acc.2 ++ [m.id] else acc.2)) st).1 := by
  induction l generalizing st with
  | nil => exact Nat.le_refl _
  | cons m t ih =>
    rw [List.foldl_cons]
    exact Nat.le_trans (Nat.le_max_left st.1 m.id)
      (ih (st.1 ⊔ m.id, if autoKwMatch k m.text = true then st.2 ++ [m.id] else st.2))

theorem loopFold_snd_mem (k : List String) (l : List AMsg) (st : Nat × List Nat) (x : Nat)
    (hx : x ∈ (l.foldl (fun acc m => (max acc.1 m.id,
      if autoKwMatch k m.text then acc.2 ++ [m.id] else acc.2)) st).2) :
    x ∈ st.2 ∨ ∃ m ∈ l, x = m.id := by
  induction l generalizing st with
  | nil => exact Or.inl hx
  | cons m t ih =>
    rw [List.foldl_cons] at hx
    rcases ih _ hx with h | ⟨m', hm', rfl⟩
    · by_cases hkw : autoKwMatch k m.text = true
      · simp only [hkw, if_true, List.mem_append, List.mem_singleton] at h
        rcases h with h | rfl
        · exact Or.inl h
        · exact Or.inr ⟨m, List.mem_cons_self m t, rfl⟩
      · simp only [hkw, if_false] at h
        exact Or.inl h
    · exact Or.inr ⟨m', List.mem_cons_of_mem m hm', rfl⟩

theorem forwardLoopBody_fst_le (k : List String) (st : Nat × List Nat) (log : List AMsg) :
    st.1 ≤ (forwardLoopBody k st log).1 :=
  loopFold_fst_le k _ st

theorem forwardLoopBody_snd (k : List String) (st : Nat × List Nat) (log : List AMsg)
    (x : Nat) (hx : x ∈ (forwardLoopBody k st log).2) :
    x ∈ st.2 ∨ st.1 < x := by
  rcases loopFold_snd_mem k _ st x hx with h | ⟨m, hm, rfl⟩
  · exact Or.inl h
  · right
    simp only [fetchMessages, List.mem_reverse, List.mem_filter,
      decide_eq_true_eq] at hm
    exact hm.2

theorem runLoop_inv (k : List String) (snaps : List (List AMsg)) (st : Nat × List Nat)
    (L : Nat) (h1 : L ≤ st.1) (h2 : ∀ x ∈ st.2, L < x) :
    L ≤ (snaps.foldl (forwardLoopBody k) st).1
    ∧ ∀ x ∈ (snaps.foldl (forwardLoopBody k) st).2, L < x := by
  induction snaps generalizing st with
  | nil => exact ⟨h1, h2⟩
  | cons log t ih =>
    apply ih
    · exact Nat.le_trans h1 (forwardLoopBody_fst_le k st log)
    · intro x hx
      rcases forwardLoopBody_snd k st log x hx with h | h
      · exact h2 x h
      · exact Nat.lt_of_le_of_lt h1 h

theorem initLast_ge (log : List AMsg) (L : Nat)
    (hs : List.Pairwise (fun m1 m2 => m1.id < m2.id) log)
    (hL : initLast log = some L) :
    ∀ m ∈ log, m.id ≤ L := by
  rcases List.eq_nil_or_concat log with rfl | ⟨l', b, rfl⟩
  · intro m hm
    exact absurd hm (List.not_mem_nil m)
  · have hL' : L = b.id := by
      simp [initLast] at hL
      omega
    intro m hm
    rw [List.concat_eq_append] at hm hs
    rcases List.mem_append.mp hm with h | h
    · have := (List.pairwise_append.mp hs).2.2 m h b (List.mem_singleton_self b)
      omega
    · rw [List.mem_singleton] at h
      subst h
      exact Nat.le_of_eq hL'.symm

/-- C10: in the autorun polling loop, the per-chat last-seen id never
decreases; each fetched batch is walked in strictly ascending id order;
a forward is only ever considered for a message id strictly above the
last-seen id at fetch time; and messages already present when the loop
starts (the initial last-seen id is the newest existing id) are never
forwarded in any later iteration. -/
theorem c10_autorun_forwards_only_new_messages :
    (∀ (k : List String) (st : Nat × List Nat) (log : List AMsg),
        st.1 ≤ (forwardLoopBody k st log).1)
    ∧ (∀ (log : List AMsg) (minId : Nat),
        List.Pairwise (fun m1 m2 => m1.id < m2.id) log →
        List.Pairwise (fun m1 m2 => m1.id < m2.id) ((fetchMessages log minId).reverse))
    ∧ (∀ (k : List String) (st : Nat × List Nat) (log : List AMsg) (x : Nat),
        x ∈ (forwardLoopBody k st log).2 → x ∈ st.2 ∨ st.1 < x)
    ∧ (∀ (k : List String) (log0 : List AMsg) (L : Nat) (snaps : List (List AMsg)),
        List.Pairwise (fun m1 m2 => m1.id < m2.id) log0 →
        initLast log0 = some L →
        ∀ m ∈ log0, m.id ∉ (runLoop k L snaps).2) := by
  refine ⟨forwardLoopBody_fst_le, ?_, forwardLoopBody_snd, ?_⟩
  · intro log minId hs
    rw [fetchMessages, List.reverse_reverse]
    exact List.Pairwise.filter _ hs
  · intro k log0 L snaps hs hL m hm hmem
    have hinv := runLoop_inv k snaps (L, []) L (Nat.le_refl L) (by simp)
    exact absurd (hinv.2 m.id hmem) (Nat.not_lt.mpr (initLast_ge log0 L hs hL m hm))

theorem c10_witness :
    List.Pairwise (fun m1 m2 => m1.id < m2.id) ([⟨1, "a"⟩, ⟨2, "b"⟩] : List AMsg)
    ∧ initLast [⟨1, "a"⟩, ⟨2, "b"⟩] = some 2
    ∧ (⟨2, "b"⟩ : AMsg).id ∉ (runLoop [] 2 [[⟨1, "a"⟩, ⟨2, "b"⟩, ⟨3, "c"⟩]]).2 :=
  ⟨by decide, by decide,
   c10_autorun_forwards_only_new_messages.2.2.2 [] [⟨1, "a"⟩, ⟨2, "b"⟩] 2
     [[⟨1, "a"⟩, ⟨2, "b"⟩, ⟨3, "c"⟩]] (by decide) (by decide) ⟨2, "b"⟩ (by decide)⟩
